import Mathlib

/-!
Verification of the state-management engine of `src/app/calculator.py`
(module5_is601): the `Calculator` facade with `perform_operation`,
`undo`/`redo` over history mementos, bounded history, observer fan-out
and CSV persistence (`save_history`/`load_history`).

The embedding models Python `Decimal` as `Rat`, timestamps as `Nat`
instants supplied to `perform_operation`, and Python lists by Lean lists
with `append` as `l ++ [x]`, `pop()` as `getLast?`/`dropLast` and
`pop(0)` as `drop 1`, matching the source's use of list mutation.
Collaborator modules that are not part of the source under scrutiny
(`app/input_validators.py`, `app/operations.py`, `app/calculation.py`,
`app/history.py`, pandas CSV I/O) are treated abstractly or modelled
from the spec, as noted on each definition.
-/

namespace App

/-- Configuration surface consumed by the core engine.  Only
`max_history_size` is read by `calculator.py` itself (line 205); the other
fields (`max_input_value`, file locations) are consumed by collaborators
that are modelled abstractly here. -/
structure CalculatorConfig where
  max_history_size : Nat
  deriving Repr, DecidableEq

/-- Modelled from the spec: `app/calculation.py` is not under `src/`.  Per
the spec, a Calculation Record is the immutable value object
`{operation, operand1, operand2, result, timestamp}` with field-wise value
equality; per the testable properties, its `result` field equals the
strategy's pure computation of the two validated operands, so the record
stores that value directly. -/
structure Calculation where
  operation : String
  operand1 : Rat
  operand2 : Rat
  result : Rat
  timestamp : Nat
  deriving Repr, DecidableEq

/-- A memento: the snapshot of the history list pushed on the undo/redo
stacks (`CalculatorMemento(self.history.copy())`).  In the Lean embedding
lists are immutable values, so the `.copy()` calls of the source are
identities. -/
structure CalculatorMemento where
  history : List Calculation
  deriving Repr, DecidableEq

/-- The operation strategy capability: `app/operations.py` is not under
`src/`; per the spec it exposes an `execute` function from two numerics to
a result (signalling an Operation Error on domain-invalid input, here the
`Except.error` case) and a stable display name (`str(strategy)`). -/
structure Operation where
  name : String
  execute : Rat → Rat → Except String Rat

/-- The observer capability of `app/history.py` (not under `src/`): a
single `update` entry point receiving the new calculation, which may fail
(the `Except.error` case models `update` raising). -/
structure HistoryObserver where
  update : Calculation → Except String Unit

/-- The error taxonomy of `app/exceptions.py` as raised by
`calculator.py`: `ValidationError` propagates unchanged from validation;
everything else surfaces as `OperationError`. -/
inductive CalcError where
  | validationError (msg : String)
  | operationError (msg : String)
  deriving Repr, DecidableEq

/-- The mutable state of a `Calculator` instance (lines 84-88 of
`calculator.py`): history, current strategy, observer registry and the two
memento stacks, plus the configuration. -/
structure Calculator where
  config : CalculatorConfig
  history : List Calculation
  operation_strategy : Option Operation
  observers : List HistoryObserver
  undo_stack : List CalculatorMemento
  redo_stack : List CalculatorMemento

/-- `notify_observers` (lines 169-172): call `update` on each observer in
registration order; the first failure propagates. -/
def notify_observers : List HistoryObserver → Calculation → Except String Unit
  | [], _ => .ok ()
  | o :: rest, c =>
    match o.update c with
    | .error e => .error e
    | .ok _ => notify_observers rest c

/-- The post-insert bound enforcement of lines 205-206: after appending,
if the history length exceeds `max_history_size`, pop exactly the record
at index 0. -/
def enforceBound (m : Nat) (l : List Calculation) : List Calculation :=
  if l.length > m then l.drop 1 else l

/-- The state mutation of lines 201-206 of `perform_operation`: push a
memento of the pre-append history onto the undo stack, clear the redo
stack, append the new calculation, then enforce the size bound. -/
def commitCalculation (c : Calculator) (calculation : Calculation) : Calculator :=
  { c with
    undo_stack := c.undo_stack ++ [{ history := c.history }],
    redo_stack := [],
    history := enforceBound c.config.max_history_size (c.history ++ [calculation]) }

/-- `perform_operation` (lines 179-216).  `validate` stands for
`InputValidator.validate_number` applied to the configuration
(`app/input_validators.py` is not under `src/`, so it is an arbitrary
parameter); `now` is the instant stamped on the record.  The result is the
returned-or-raised outcome paired with the post-call state, so that state
mutation surviving a raised error is visible.  Faithful to the source: a
missing strategy raises `OperationError "No operation set"`; a
`ValidationError` re-raises unchanged; a strategy failure is wrapped as
`OperationError ("Operation failed: " ++ cause)`; the commit of lines
201-206 happens before `notify_observers`, so an observer failure is also
wrapped but leaves the committed state in place. -/
def perform_operation (validate : String → Except String Rat) (now : Nat)
    (c : Calculator) (a b : String) : Except CalcError Rat × Calculator :=
  match c.operation_strategy with
  | none => (.error (.operationError "No operation set"), c)
  | some strat =>
    match validate a with
    | .error e => (.error (.validationError e), c)
    | .ok validated_a =>
      match validate b with
      | .error e => (.error (.validationError e), c)
      | .ok validated_b =>
        match strat.execute validated_a validated_b with
        | .error e => (.error (.operationError ("Operation failed: " ++ e)), c)
        | .ok result =>
          let calculation : Calculation :=
            { operation := strat.name, operand1 := validated_a,
              operand2 := validated_b, result := result, timestamp := now }
          let calc2 := commitCalculation c calculation
          match notify_observers c.observers calculation with
          | .error e => (.error (.operationError ("Operation failed: " ++ e)), calc2)
          | .ok _ => (.ok result, calc2)

/-- `undo` (lines 303-310): empty undo stack returns `false` with no
change; otherwise pop the top memento, push a snapshot of the current
history onto the redo stack, and install the popped history. -/
def undo (c : Calculator) : Bool × Calculator :=
  match c.undo_stack.getLast? with
  | none => (false, c)
  | some memento =>
    (true,
      { c with
        undo_stack := c.undo_stack.dropLast,
        redo_stack := c.redo_stack ++ [{ history := c.history }],
        history := memento.history })

/-- `redo` (lines 312-319): the mirror of `undo`, exchanging the two
stacks. -/
def redo (c : Calculator) : Bool × Calculator :=
  match c.redo_stack.getLast? with
  | none => (false, c)
  | some memento =>
    (true,
      { c with
        redo_stack := c.redo_stack.dropLast,
        undo_stack := c.undo_stack ++ [{ history := c.history }],
        history := memento.history })

/-- `clear_history` (lines 296-301): clear the history and both stacks. -/
def clear_history (c : Calculator) : Calculator :=
  { c with history := [], undo_stack := [], redo_stack := [] }

/-- One row of the persisted CSV file as handled by
`save_history`/`load_history`.  Modelled from the spec: the pandas CSV
layer, `str(Decimal)` and `Calculation.from_dict` are not under `src/`;
per the spec, `save` stringifies each field to its canonical form and
`load` parses each column back into its semantic type, an exact inverse,
so the row is modelled as carrying the five field values. -/
structure HistoryRow where
  operation : String
  operand1 : Rat
  operand2 : Rat
  result : Rat
  timestamp : Nat
  deriving Repr, DecidableEq

/-- The row written for one calculation by `save_history` (lines 225-234). -/
def calculationToRow (c : Calculation) : HistoryRow :=
  { operation := c.operation, operand1 := c.operand1, operand2 := c.operand2,
    result := c.result, timestamp := c.timestamp }

/-- Modelled from the spec: `Calculation.from_dict` (in
`app/calculation.py`, not under `src/`) reconstructs a record by parsing
each column back into its semantic type. -/
def rowToCalculation (r : HistoryRow) : Calculation :=
  { operation := r.operation, operand1 := r.operand1, operand2 := r.operand2,
    result := r.result, timestamp := r.timestamp }

/-- `save_history` (lines 218-247): returns the new contents of the
history file, one row per record; an empty history still writes a valid
(header-only) file, hence the file always exists afterwards with the
possibly empty row list. -/
def save_history (c : Calculator) : List HistoryRow :=
  c.history.map calculationToRow

/-- `load_history` (lines 249-274).  The file is `none` when missing:
that branch only logs and leaves the state unchanged.  With an existing
file, an empty data frame also only logs; otherwise the history is
replaced by the parsed rows.  Well-formed rows are assumed by the model
(the malformed-file `OperationError` path of line 274 is out of scope for
the claims settled here), so the function is total. -/
def load_history (c : Calculator) (file : Option (List HistoryRow)) : Calculator :=
  match file with
  | none => c
  | some rows =>
    if rows.isEmpty then c
    else { c with history := rows.map rowToCalculation }

/-- Whether a `perform_operation` outcome is a raised error. -/
def signalsError {α : Type} : Except CalcError α → Bool
  | .error _ => true
  | .ok _ => false

/-- The bounded-history invariant: the live history and every memento on
either stack are within the configured bound. -/
def boundedInv (c : Calculator) : Prop :=
  c.history.length ≤ c.config.max_history_size ∧
  (∀ m ∈ c.undo_stack, m.history.length ≤ c.config.max_history_size) ∧
  (∀ m ∈ c.redo_stack, m.history.length ≤ c.config.max_history_size)

/-! Concrete instances used by witnesses and counterexamples. -/

/-- A concrete strategy returning its first operand (chosen so that
concrete states evaluate by kernel reduction, which stuck rational
arithmetic would block). -/
def leftOp : Operation := { name := "Left", execute := fun x _ => .ok x }

/-- A concrete validator accepting the strings "1" and "2". -/
def parseOneTwo : String → Except String Rat := fun s =>
  if s = "1" then .ok 1
  else if s = "2" then .ok 2
  else .error ("Invalid number format: " ++ s)

/-- An observer whose `update` always raises. -/
def boomObserver : HistoryObserver := { update := fun _ => .error "boom" }

/-- A fresh calculator with the addition strategy set, bound 5. -/
def calcEmpty : Calculator :=
  { config := { max_history_size := 5 }, history := [],
    operation_strategy := some leftOp, observers := [],
    undo_stack := [], redo_stack := [] }

/-- A fresh calculator with no strategy set. -/
def calcNoStrat : Calculator := { calcEmpty with operation_strategy := none }

/-- A calculator whose single observer raises on every notification. -/
def calcWithBoom : Calculator := { calcEmpty with observers := [boomObserver] }

/-- A sample record. -/
def recSample : Calculation :=
  { operation := "Left", operand1 := 1, operand2 := 2, result := 1, timestamp := 0 }

/-- A sample persisted row, distinguished by its timestamp. -/
def rowSample (n : Nat) : HistoryRow :=
  { operation := "Left", operand1 := 1, operand2 := 2, result := 1, timestamp := n }

/-- A calculator with one record already in history. -/
def calcNonEmpty : Calculator := { calcEmpty with history := [recSample] }

/-- The reachable state perform-then-undo: empty undo stack, non-empty
redo stack. -/
def calcRedoOnly : Calculator :=
  (undo (perform_operation parseOneTwo 0 calcEmpty "1" "2").2).2

/-- A fresh calculator configured with `max_history_size = 3`. -/
def cfg3Calc : Calculator := { calcEmpty with config := { max_history_size := 3 } }

/-! Helper lemmas shared by the claim theorems. -/

theorem notify_ok_cases (obs : List HistoryObserver) (cal : Calculation) :
    (∃ e, notify_observers obs cal = .error e) ∨ notify_observers obs cal = .ok () := by
  cases h : notify_observers obs cal with
  | error e => exact Or.inl ⟨e, rfl⟩
  | ok u => cases u; exact Or.inr rfl

theorem enforceBound_length_le (m : Nat) (l : List Calculation)
    (h : l.length ≤ m + 1) : (enforceBound m l).length ≤ m := by
  unfold enforceBound
  split
  · simp
    omega
  · omega

theorem boundedInv_commit (c : Calculator) (cal : Calculation)
    (h : boundedInv c) : boundedInv (commitCalculation c cal) := by
  obtain ⟨h1, h2, h3⟩ := h
  refine ⟨?_, ?_, ?_⟩
  · simp only [commitCalculation]
    apply enforceBound_length_le
    simp
    omega
  · intro mem hmem
    simp only [commitCalculation, List.mem_append, List.mem_singleton] at hmem
    rcases hmem with hmem | hmem
    · exact h2 mem hmem
    · subst hmem
      exact h1
  · intro mem hmem
    simp only [commitCalculation] at hmem
    simp at hmem

/-- C7: validation-error propagation.  With a strategy set, if validation
of the first raw operand fails, or the first succeeds and the second
fails, `perform_operation` raises exactly that Validation Error unchanged
(never wrapped as an Operation Error) and returns the state untouched:
history, undo stack and redo stack are not mutated. -/
theorem validation_error_propagation (v : String → Except String Rat) (now : Nat)
    (c : Calculator) (a b : String) (strat : Operation) (e : String)
    (hs : c.operation_strategy = some strat)
    (hv : v a = .error e ∨ ∃ va, v a = .ok va ∧ v b = .error e) :
    perform_operation v now c a b = (.error (.validationError e), c) := by
  rcases hv with ha | ⟨va, ha, hb⟩
  · simp [perform_operation, hs, ha]
  · simp [perform_operation, hs, ha, hb]

/-- Witness for C7: the invalid operand string "x" raises the validator's
error unchanged and leaves the fresh calculator unmodified. -/
theorem validation_error_propagation_witness :
    calcEmpty.operation_strategy = some leftOp ∧
    parseOneTwo "x" = .error "Invalid number format: x" ∧
    perform_operation parseOneTwo 0 calcEmpty "x" "2" =
      (.error (.validationError "Invalid number format: x"), calcEmpty) :=
  ⟨rfl, rfl,
    validation_error_propagation parseOneTwo 0 calcEmpty "x" "2" leftOp
      "Invalid number format: x" rfl (Or.inl rfl)⟩

/-- C5: every successful `perform_operation` leaves the redo stack empty,
so an immediately following `redo()` returns false. -/
theorem new_operation_clears_redo (v : String → Except String Rat) (now : Nat)
    (c : Calculator) (a b : String) (res : Rat)
    (hres : (perform_operation v now c a b).1 = .ok res) :
    (perform_operation v now c a b).2.redo_stack = [] ∧
    (redo (perform_operation v now c a b).2).1 = false := by
  have hst : (perform_operation v now c a b).2.redo_stack = [] := by
    cases hs : c.operation_strategy with
    | none => simp [perform_operation, hs] at hres
    | some strat =>
      cases ha : v a with
      | error e => simp [perform_operation, hs, ha] at hres
      | ok va =>
        cases hb : v b with
        | error e => simp [perform_operation, hs, ha, hb] at hres
        | ok vb =>
          cases hex : strat.execute va vb with
          | error e => simp [perform_operation, hs, ha, hb, hex] at hres
          | ok r =>
            rcases notify_ok_cases c.observers
                { operation := strat.name, operand1 := va, operand2 := vb,
                  result := r, timestamp := now } with ⟨e, hn⟩ | hn
            · simp [perform_operation, hs, ha, hb, hex, hn] at hres
            · simp [perform_operation, hs, ha, hb, hex, hn, commitCalculation]
  refine ⟨hst, ?_⟩
  simp [redo, hst]

/-- Witness for C5: one successful operation on the fresh calculator
leaves no redo state and a following `redo()` reports false. -/
theorem new_operation_clears_redo_witness :
    (perform_operation parseOneTwo 0 calcEmpty "1" "2").1 = .ok 1 ∧
    ((perform_operation parseOneTwo 0 calcEmpty "1" "2").2.redo_stack = [] ∧
      (redo (perform_operation parseOneTwo 0 calcEmpty "1" "2").2).1 = false) :=
  ⟨rfl, new_operation_clears_redo parseOneTwo 0 calcEmpty "1" "2" 1 rfl⟩

/-- C2: on a successful call with a set strategy and valid operands,
`perform_operation` returns exactly the strategy's computation of the two
validated operands, and the post-call history is the pre-call history
with exactly one new record appended (the bound being enforced only after
that append); the appended record's `result` field is that same strategy
computation. -/
theorem perform_operation_appends_record (v : String → Except String Rat) (now : Nat)
    (c : Calculator) (a b : String) (strat : Operation) (va vb res : Rat)
    (hs : c.operation_strategy = some strat)
    (hva : v a = .ok va) (hvb : v b = .ok vb)
    (hres : (perform_operation v now c a b).1 = .ok res) :
    strat.execute va vb = .ok res ∧
    (perform_operation v now c a b).2.history =
      enforceBound c.config.max_history_size
        (c.history ++ [{ operation := strat.name, operand1 := va, operand2 := vb,
                         result := res, timestamp := now }]) := by
  cases hex : strat.execute va vb with
  | error e => simp [perform_operation, hs, hva, hvb, hex] at hres
  | ok r =>
    rcases notify_ok_cases c.observers
        { operation := strat.name, operand1 := va, operand2 := vb,
          result := r, timestamp := now } with ⟨e, hn⟩ | hn
    · simp [perform_operation, hs, hva, hvb, hex, hn] at hres
    · have hre : r = res := by
        simpa [perform_operation, hs, hva, hvb, hex, hn] using hres
      subst hre
      refine ⟨rfl, ?_⟩
      simp [perform_operation, hs, hva, hvb, hex, hn, commitCalculation]

/-- Witness for C2: the fresh calculator with the `leftOp` strategy and
operands "1", "2" appends exactly the expected record. -/
theorem perform_operation_appends_record_witness :
    calcEmpty.operation_strategy = some leftOp ∧
    parseOneTwo "1" = .ok 1 ∧ parseOneTwo "2" = .ok 2 ∧
    (perform_operation parseOneTwo 0 calcEmpty "1" "2").1 = .ok 1 ∧
    (leftOp.execute 1 2 = .ok 1 ∧
      (perform_operation parseOneTwo 0 calcEmpty "1" "2").2.history =
        enforceBound calcEmpty.config.max_history_size
          (calcEmpty.history ++ [{ operation := leftOp.name, operand1 := 1, operand2 := 2,
                                   result := 1, timestamp := 0 }])) :=
  ⟨rfl, rfl, rfl, rfl,
    perform_operation_appends_record parseOneTwo 0 calcEmpty "1" "2" leftOp 1 2 1
      rfl rfl rfl rfl⟩

/-- C8: undo/redo step semantics.  `undo()` with an empty undo stack
returns false and changes nothing (no error is raised); otherwise it pops
the top memento from the undo stack, pushes a snapshot of the current
history onto the redo stack, installs the popped history as current and
returns true.  `redo()` is the exact mirror with the two stacks
exchanged. -/
theorem undo_redo_step_semantics (c : Calculator) :
    (c.undo_stack = [] → undo c = (false, c)) ∧
    (∀ m, c.undo_stack.getLast? = some m →
      undo c = (true,
        { c with undo_stack := c.undo_stack.dropLast,
                 redo_stack := c.redo_stack ++ [{ history := c.history }],
                 history := m.history })) ∧
    (c.redo_stack = [] → redo c = (false, c)) ∧
    (∀ m, c.redo_stack.getLast? = some m →
      redo c = (true,
        { c with redo_stack := c.redo_stack.dropLast,
                 undo_stack := c.undo_stack ++ [{ history := c.history }],
                 history := m.history })) := by
  refine ⟨?_, ?_, ?_, ?_⟩
  · intro h
    simp [undo, h]
  · intro m hm
    simp [undo, hm]
  · intro h
    simp [redo, h]
  · intro m hm
    simp [redo, hm]

/-- Witness for C8: on the fresh calculator both stacks are empty, so
`undo` and `redo` are reported as no-ops. -/
theorem undo_redo_step_semantics_witness :
    calcEmpty.undo_stack = [] ∧ undo calcEmpty = (false, calcEmpty) ∧
    calcEmpty.redo_stack = [] ∧ redo calcEmpty = (false, calcEmpty) :=
  ⟨rfl, (undo_redo_step_semantics calcEmpty).1 rfl, rfl,
    (undo_redo_step_semantics calcEmpty).2.2.1 rfl⟩

/-- C10 (implicit): `clear_history` resets the full undo/redo state: the
history, the undo stack and the redo stack are all empty afterwards, so an
immediately following `undo()` or `redo()` returns false with no further
change. -/
theorem clear_history_resets_all (c : Calculator) :
    (clear_history c).history = [] ∧
    (clear_history c).undo_stack = [] ∧
    (clear_history c).redo_stack = [] ∧
    undo (clear_history c) = (false, clear_history c) ∧
    redo (clear_history c) = (false, clear_history c) :=
  ⟨rfl, rfl, rfl, rfl, rfl⟩

/-- C9 counterexample: the claim that a `load()` with no backing file
always results in an empty History is false: on a calculator whose
in-memory history is non-empty, `load_history` with a missing file leaves
that history in place. -/
theorem load_history_missing_file_cex :
    (load_history calcNonEmpty none).history = [recSample] ∧
    (load_history calcNonEmpty none).history ≠ [] := ⟨rfl, by decide⟩

/-- C9 amended: `load()` when the configured history file does not exist
raises no error and leaves the whole engine state unchanged; the history
is empty afterwards exactly when it was empty before the call (as it is at
construction, the only load site in the source). -/
theorem load_history_missing_file (c : Calculator) :
    load_history c none = c := rfl

/-- C6: persistence round-trip.  Saving the history (of any length,
zero included) and then loading the saved file yields exactly the same
sequence of records, field-wise equal in operation name, operands, result
and timestamp.  The empty case goes through the source's empty-data-frame
branch, which leaves the (already saved, hence empty) history as is. -/
theorem row_round_trip (r : Calculation) :
    rowToCalculation (calculationToRow r) = r := by
  cases r
  rfl

theorem map_row_round_trip (l : List Calculation) :
    List.map (rowToCalculation ∘ calculationToRow) l = l := by
  induction l with
  | nil => rfl
  | cons x t ih => simp [row_round_trip, ih]

theorem save_load_round_trip (c : Calculator) :
    (load_history c (some (save_history c))).history = c.history := by
  show (load_history c (some (List.map calculationToRow c.history))).history = c.history
  cases h : c.history with
  | nil => simp [load_history, h]
  | cons x t =>
    simp only [load_history, h, List.map_cons, List.isEmpty_cons,
      Bool.false_eq_true, if_false]
    show List.map rowToCalculation (List.map calculationToRow (x :: t)) = x :: t
    rw [List.map_map]
    exact map_row_round_trip (x :: t)

/-- C1 counterexample: `perform_operation` is not atomic on failure as
claimed.  With an observer whose `update` raises, the call signals an
Operation Error, yet the history and the undo stack have been mutated
(the record appended, the pre-call memento pushed) -- the source commits
the state at lines 201-206 before notifying observers at line 208 and the
generic handler of line 214 wraps the observer failure without rolling
back. -/
theorem perform_operation_observer_failure_cex :
    signalsError (perform_operation parseOneTwo 0 calcWithBoom "1" "2").1 = true ∧
    (perform_operation parseOneTwo 0 calcWithBoom "1" "2").2.history ≠ calcWithBoom.history ∧
    (perform_operation parseOneTwo 0 calcWithBoom "1" "2").2.undo_stack ≠ calcWithBoom.undo_stack := by
  refine ⟨rfl, ?_, ?_⟩ <;> decide

/-- C1 amended: atomicity holds for every failure detected before the
observer notification (missing strategy, validation of either operand,
strategy execution): there the history, undo stack and redo stack are
exactly as before the call.  The only exception is a failure raised by a
notified observer, which is wrapped as an Operation Error but leaves the
fully committed post-operation state in place. -/
theorem perform_operation_failure_atomicity (v : String → Except String Rat)
    (now : Nat) (c : Calculator) (a b : String)
    (h : signalsError (perform_operation v now c a b).1 = true) :
    (perform_operation v now c a b).2 = c ∨
    ∃ cal e, (perform_operation v now c a b).2 = commitCalculation c cal ∧
      notify_observers c.observers cal = .error e := by
  cases hs : c.operation_strategy with
  | none =>
    left
    simp [perform_operation, hs]
  | some strat =>
    cases ha : v a with
    | error e =>
      left
      simp [perform_operation, hs, ha]
    | ok va =>
      cases hb : v b with
      | error e =>
        left
        simp [perform_operation, hs, ha, hb]
      | ok vb =>
        cases hex : strat.execute va vb with
        | error e =>
          left
          simp [perform_operation, hs, ha, hb, hex]
        | ok r =>
          rcases notify_ok_cases c.observers
              { operation := strat.name, operand1 := va, operand2 := vb,
                result := r, timestamp := now } with ⟨e, hn⟩ | hn
          · right
            exact ⟨_, e, by simp [perform_operation, hs, ha, hb, hex, hn], hn⟩
          · exfalso
            simp [perform_operation, signalsError, hs, ha, hb, hex, hn] at h

/-- Witness for C1 (amended): calling with no strategy set fails and the
state is returned untouched. -/
theorem perform_operation_failure_atomicity_witness :
    signalsError (perform_operation parseOneTwo 0 calcNoStrat "1" "2").1 = true ∧
    ((perform_operation parseOneTwo 0 calcNoStrat "1" "2").2 = calcNoStrat ∨
      ∃ cal e,
        (perform_operation parseOneTwo 0 calcNoStrat "1" "2").2 =
          commitCalculation calcNoStrat cal ∧
        notify_observers calcNoStrat.observers cal = .error e) :=
  ⟨rfl, perform_operation_failure_atomicity parseOneTwo 0 calcNoStrat "1" "2" rfl⟩

/-- C3 counterexample: the unconditional pair-cancellation law fails.  In
the reachable state perform-then-undo (empty undo stack, non-empty redo
stack), `undo()` is a no-op returning false, but the following `redo()`
still changes History, so the pair does not leave History where it was. -/
theorem undo_redo_pair_cex :
    (undo calcRedoOnly).1 = false ∧
    (redo (undo calcRedoOnly).2).2.history ≠ calcRedoOnly.history := by
  refine ⟨rfl, ?_⟩
  decide

/-- C3 amended: after a successful `perform_operation` turning History H
into History H-prime, `undo()` restores exactly H and a subsequent
`redo()` restores exactly H-prime; and for every state, an `undo()` that
returns true followed by `redo()` (or a `redo()` that returns true
followed by `undo()`) leaves History value-equal to its state before the
pair.  When the first call of the pair returns false the second call may
still change History, as the counterexample shows. -/
theorem undo_redo_inverse (v : String → Except String Rat) (now : Nat)
    (c : Calculator) (a b : String) (res : Rat) (c2 : Calculator)
    (hp : perform_operation v now c a b = (.ok res, c2)) :
    (undo c2).2.history = c.history ∧
    (redo (undo c2).2).2.history = c2.history ∧
    (∀ d : Calculator, (undo d).1 = true → (redo (undo d).2).2.history = d.history) ∧
    (∀ d : Calculator, (redo d).1 = true → (undo (redo d).2).2.history = d.history) := by
  have hgen1 : ∀ d : Calculator, (undo d).1 = true →
      (redo (undo d).2).2.history = d.history := by
    intro d hd
    cases hm : d.undo_stack.getLast? with
    | none => simp [undo, hm] at hd
    | some m => simp [undo, hm, redo, List.getLast?_concat]
  have hgen2 : ∀ d : Calculator, (redo d).1 = true →
      (undo (redo d).2).2.history = d.history := by
    intro d hd
    cases hm : d.redo_stack.getLast? with
    | none => simp [redo, hm] at hd
    | some m => simp [redo, hm, undo, List.getLast?_concat]
  cases hs : c.operation_strategy with
  | none => simp [perform_operation, hs] at hp
  | some strat =>
    cases ha : v a with
    | error e => simp [perform_operation, hs, ha] at hp
    | ok va =>
      cases hb : v b with
      | error e => simp [perform_operation, hs, ha, hb] at hp
      | ok vb =>
        cases hex : strat.execute va vb with
        | error e => simp [perform_operation, hs, ha, hb, hex] at hp
        | ok r =>
          rcases notify_ok_cases c.observers
              { operation := strat.name, operand1 := va, operand2 := vb,
                result := r, timestamp := now } with ⟨e, hn⟩ | hn
          · simp [perform_operation, hs, ha, hb, hex, hn] at hp
          · have hc2 : c2 = commitCalculation c
                { operation := strat.name, operand1 := va, operand2 := vb,
                  result := r, timestamp := now } := by
              have := hp
              simp [perform_operation, hs, ha, hb, hex, hn] at this
              exact this.2.symm
            subst hc2
            refine ⟨?_, ?_, hgen1, hgen2⟩
            · simp [commitCalculation, undo, List.getLast?_concat]
            · simp [commitCalculation, undo, redo, List.getLast?_concat]

/-- Witness for C3 (amended): one successful operation on the fresh
calculator, then undo restores the empty history and redo restores the
one-record history. -/
theorem undo_redo_inverse_witness :
    perform_operation parseOneTwo 0 calcEmpty "1" "2" =
      (.ok 1, (perform_operation parseOneTwo 0 calcEmpty "1" "2").2) ∧
    (undo (perform_operation parseOneTwo 0 calcEmpty "1" "2").2).2.history =
      calcEmpty.history ∧
    (redo (undo (perform_operation parseOneTwo 0 calcEmpty "1" "2").2).2).2.history =
      (perform_operation parseOneTwo 0 calcEmpty "1" "2").2.history := by
  have hp : perform_operation parseOneTwo 0 calcEmpty "1" "2" =
      (.ok 1, (perform_operation parseOneTwo 0 calcEmpty "1" "2").2) := rfl
  have h := undo_redo_inverse parseOneTwo 0 calcEmpty "1" "2" 1 _ hp
  exact ⟨hp, h.1, h.2.1⟩

/-- C4 counterexample: `load_history` does not enforce the configured
bound.  With `max_history_size = 3` and an existing file of four rows, the
loaded History has length 4, exceeding the bound. -/
theorem load_history_bound_cex :
    (load_history cfg3Calc
        (some [rowSample 0, rowSample 1, rowSample 2, rowSample 3])).history.length = 4 ∧
    ¬ (load_history cfg3Calc
        (some [rowSample 0, rowSample 1, rowSample 2, rowSample 3])).history.length ≤
      cfg3Calc.config.max_history_size := by
  refine ⟨rfl, ?_⟩
  decide

/-- C4 amended: the bounded-history invariant (history and every stacked
memento within `max_history_size`) is preserved by `perform_operation`
(with FIFO eviction of exactly the record at index 0, applied after the
append, as `enforceBound` states), by `undo`, by `redo` and by
`clear_history`; `load_history` with an existing non-empty file instead
replaces History by the full file contents, whose length is the file's
row count regardless of the bound. -/
theorem bounded_history (v : String → Except String Rat) (now : Nat)
    (c : Calculator) (a b : String) (h : boundedInv c) :
    boundedInv (perform_operation v now c a b).2 ∧
    boundedInv (undo c).2 ∧
    boundedInv (redo c).2 ∧
    boundedInv (clear_history c) ∧
    ∀ rows : List HistoryRow, rows ≠ [] →
      (load_history c (some rows)).history.length = rows.length := by
  obtain ⟨h1, h2, h3⟩ := h
  refine ⟨?_, ?_, ?_, ?_, ?_⟩
  · cases hs : c.operation_strategy with
    | none => simpa [perform_operation, hs] using ⟨h1, h2, h3⟩
    | some strat =>
      cases ha : v a with
      | error e => simpa [perform_operation, hs, ha] using ⟨h1, h2, h3⟩
      | ok va =>
        cases hb : v b with
        | error e => simpa [perform_operation, hs, ha, hb] using ⟨h1, h2, h3⟩
        | ok vb =>
          cases hex : strat.execute va vb with
          | error e => simpa [perform_operation, hs, ha, hb, hex] using ⟨h1, h2, h3⟩
          | ok r =>
            rcases notify_ok_cases c.observers
                { operation := strat.name, operand1 := va, operand2 := vb,
                  result := r, timestamp := now } with ⟨e, hn⟩ | hn
            · have := boundedInv_commit c
                { operation := strat.name, operand1 := va, operand2 := vb,
                  result := r, timestamp := now } ⟨h1, h2, h3⟩
              simpa [perform_operation, hs, ha, hb, hex, hn] using this
            · have := boundedInv_commit c
                { operation := strat.name, operand1 := va, operand2 := vb,
                  result := r, timestamp := now } ⟨h1, h2, h3⟩
              simpa [perform_operation, hs, ha, hb, hex, hn] using this
  · cases hm : c.undo_stack.getLast? with
    | none => simpa [undo, hm] using ⟨h1, h2, h3⟩
    | some m =>
      simp only [boundedInv, undo, hm]
      refine ⟨h2 m (List.mem_of_mem_getLast? hm), ?_, ?_⟩
      · intro mem hmem
        exact h2 mem (List.dropLast_subset _ hmem)
      · intro mem hmem
        simp only [List.mem_append, List.mem_singleton] at hmem
        rcases hmem with hmem | hmem
        · exact h3 mem hmem
        · subst hmem
          exact h1
  · cases hm : c.redo_stack.getLast? with
    | none => simpa [redo, hm] using ⟨h1, h2, h3⟩
    | some m =>
      simp only [boundedInv, redo, hm]
      refine ⟨h3 m (List.mem_of_mem_getLast? hm), ?_, ?_⟩
      · intro mem hmem
        simp only [List.mem_append, List.mem_singleton] at hmem
        rcases hmem with hmem | hmem
        · exact h2 mem hmem
        · subst hmem
          exact h1
      · intro mem hmem
        exact h3 mem (List.dropLast_subset _ hmem)
  · exact ⟨by simp [clear_history], by simp [clear_history], by simp [clear_history]⟩
  · intro rows hrows
    simp [load_history, List.isEmpty_iff, hrows]

/-- Witness for C4 (amended): the fresh calculator satisfies the
invariant, and so does its state after one operation and after an undo. -/
theorem bounded_history_witness :
    boundedInv calcEmpty ∧
    boundedInv (perform_operation parseOneTwo 0 calcEmpty "1" "2").2 ∧
    boundedInv (undo calcEmpty).2 := by
  have h : boundedInv calcEmpty := by
    refine ⟨by simp [calcEmpty], ?_, ?_⟩ <;> simp [calcEmpty]
  exact ⟨h, (bounded_history parseOneTwo 0 calcEmpty "1" "2" h).1,
    (bounded_history parseOneTwo 0 calcEmpty "1" "2" h).2.1⟩

end App
